import Mathlib

/-!
Shallow embedding of `src/get_pi_data.py` (a packetized time-series
extraction script) and verification of its specification claims.

Modelling conventions:
* Absolute times and durations are integers counting microseconds
  (Python `datetime` / `timedelta` arithmetic at microsecond resolution).
* The historian recordset returned by `adodb_query` is a list of rows
  `(tag, time, value)`; an empty ADO recordset has `BOF = EOF = True`,
  so the guard `not (rs.BOF or rs.EOF)` in `export` / `export_average`
  corresponds to the row list being non-empty.
* A tag's output file is `Option FileContent`: `none` when the file does
  not exist, `some lines` otherwise; every written line is non-empty, so
  `os.stat(...).st_size == 0` corresponds to the line list being empty.
* Sample values are rationals (exact field arithmetic standing for the
  script's float arithmetic); the lossy `%.5e` output formatting is
  treated as presentation and records carry the unformatted value.
* Python exceptions are modelled with `Except`.
-/

deriving instance DecidableEq for Except

namespace GetPiData

def usPerSec : Int := 1000000

/-- Model of `strftime('%d.%m.%Y  %H:%M:%S')` as used for `date1`, `date2` and the
averaging timestamp `a_date`: the format has no sub-second field, so the
time is floored to a whole second. -/
def fmtSec (t : Int) : Int := usPerSec * (t / usPerSec)

/-- Python's `timedelta / 2` (used in `d - delta/2`): exact halving rounded
to the nearest microsecond, ties to even. -/
def halfTd (t : Int) : Int :=
  if t % 2 = 0 then t / 2
  else if (t / 2) % 2 = 0 then t / 2 else t / 2 + 1

/-- One `(tag, time, value)` row, both as returned by a query and as one
written output line. -/
structure Row where
  tagname : String
  time : Int
  value : ℚ
deriving DecidableEq

/-- Python exceptions relevant to this script. -/
inductive PyErr
  | zeroDivisionError
  | fileNotFoundError
deriving DecidableEq

/-- The lines of a tag's output file, in order. -/
abbrev FileContent := List Row

/-- Model of `export` (lines 121–129): appends one line per row of the recordset to
the opened file (which the `open` call materializes even when no row is
written). -/
def exportRs (rs : List Row) (content : FileContent) : FileContent :=
  content ++ rs.map (fun s => ⟨s.tagname, s.time, s.value⟩)

/-- Model of `export_average` (lines 132–145): when the recordset is non-empty
(`not (rs.BOF or rs.EOF)`), folds over the rows accumulating the last seen
tag name, the running sum `ave` and the count `num`, then divides and
writes a single line `(tagname, a_date, ave/num)`. Python's `/` raises
`ZeroDivisionError` when `num == 0`. -/
def export_average (rs : List Row) (a_date : Int) (content : FileContent) :
    Except PyErr FileContent :=
  if rs = [] then .ok content
  else
    let acc := rs.foldl
      (fun (st : Option String × ℚ × ℚ) item =>
        (some item.tagname, st.2.1 + item.value, st.2.2 + 1))
      (none, 0, 0)
    if acc.2.2 = 0 then .error .zeroDivisionError
    else .ok (content ++ [⟨acc.1.getD "", a_date, acc.2.1 / acc.2.2⟩])

/-- Outcome of one packet's historian query: a recordset, or an exception
raised by `adodb_query` before the output file was opened. -/
inductive PacketOutcome
  | ok (rows : List Row)
  | err
deriving DecidableEq

/-- Mutable state of `getTag`'s while-loop: the cursor `d` and the tag's
output file. -/
structure LoopState where
  d : Int
  file : Option FileContent
deriving DecidableEq

/-- One iteration of `getTag`'s while-loop body (lines 163–176): the cursor
advances by `delta` before the query runs; a query exception is swallowed
by the bare `except: pass`; on success the file is opened (`'a'` when it
exists, `'w'` creating it otherwise) and written by `export` or
`export_average` with `a_date = strftime(d - delta/2)` for the advanced
cursor `d`. -/
def packetBody (average : Bool) (delta : Int) (outcome : PacketOutcome)
    (st : LoopState) : LoopState :=
  let d' := st.d + delta
  match outcome with
  | .err => ⟨d', st.file⟩
  | .ok rows =>
      if average then
        match export_average rows (fmtSec (d' - halfTd delta)) (st.file.getD []) with
        | .ok c => ⟨d', some c⟩
        | .error _ => ⟨d', some (st.file.getD [])⟩
      else ⟨d', some (exportRs rows (st.file.getD []))⟩

/-- Model of `getTag`'s while-loop (lines 160–176), fuel-indexed to talk about
(non-)termination: returns `none` when `fuel` iterations did not reach
`endTime`, otherwise the list of query bounds `(date1, date2)` issued, in
order, and the final state. `oracle i` is the historian's response to the
`i`-th packet query. -/
def getTagLoop (average : Bool) (endTime delta : Int)
    (oracle : Nat → PacketOutcome) :
    Nat → Nat → LoopState → Option (List (Int × Int) × LoopState)
  | 0, _, st => if st.d < endTime then none else some ([], st)
  | fuel + 1, i, st =>
      if st.d < endTime then
        match getTagLoop average endTime delta oracle fuel (i + 1)
            (packetBody average delta (oracle i) st) with
        | none => none
        | some (bs, fin) => some ((fmtSec st.d, fmtSec (st.d + delta)) :: bs, fin)
      else some ([], st)

/-- Model of `getTag` after the loop (lines 178–182): `os.stat` raises
`FileNotFoundError` when no iteration ever created the file; otherwise the
file is removed when it has size zero and the empty flag is returned. -/
def getTagPost (file : Option FileContent) : Except PyErr (Bool × Option FileContent) :=
  match file with
  | none => .error .fileNotFoundError
  | some content =>
      if content.isEmpty then .ok (true, none) else .ok (false, some content)

/-- Model of `getTag` (lines 148–182) end to end, for a given fuel bound: the query
bounds issued and then either the `(isEmpty, remaining file)` result or the
uncaught post-loop exception. -/
def getTagRun (average : Bool) (startTime endTime delta : Int)
    (oracle : Nat → PacketOutcome) (file0 : Option FileContent) (fuel : Nat) :
    Option (List (Int × Int) × Except PyErr (Bool × Option FileContent)) :=
  match getTagLoop average endTime delta oracle fuel 0 ⟨startTime, file0⟩ with
  | none => none
  | some (bs, fin) => some (bs, getTagPost fin.file)

/-- Model of `__main__` line 287: the only window validation; the run is aborted
exactly when `end < start`, so `start == end` passes. -/
def windowInvalid (startTime endTime : Int) : Bool := endTime < startTime

/-- Model of `__main__` lines 294–295: the packet size is clamped down to the window
length when the window is shorter than the requested packet size. -/
def resolvePacketSize (startTime endTime psize : Int) : Int :=
  if endTime - startTime < psize then endTime - startTime else psize

/-- The three windowing subcommands' arguments (`se`, `sw`, `ew`). -/
inductive WindowArgs
  | se (s e : Int)
  | sw (s : Int) (w : Int)
  | ew (e : Int) (w : Int)

/-- Model of `__main__` lines 268–273: resolution of the `[start, end)` window from
the chosen subcommand. -/
def resolveWindow : WindowArgs → Int × Int
  | .se s e => (s, e)
  | .sw s w => (s, s + w)
  | .ew e w => (e - w, e)

/-- Positional value of a big-endian digit string, as `int(...)` computes it. -/
def digitsVal (ds : List Char) : Nat :=
  ds.foldl (fun a c => 10 * a + (c.toNat - 48)) 0

/-- One optional group `((?P<g>\d+?)<suffix>)?` of `parse_time`'s regex.
Since each suffix begins with a non-digit letter, the lazy `\d+?` can only
stop at the end of the maximal leading digit run, so the group matches iff
that run is non-empty and is immediately followed by the literal suffix;
otherwise the optional group matches the empty string and consumes nothing. -/
def matchGroup (suffix : List Char) (s : List Char) : Option Nat × List Char :=
  let run := s.takeWhile Char.isDigit
  let rest := s.dropWhile Char.isDigit
  if run ≠ [] ∧ rest.take suffix.length = suffix then
    (some (digitsVal run), rest.drop suffix.length)
  else (none, s)

/-- A `datetime.timedelta(days=, hours=, minutes=, seconds=)` as built by
`parse_time`, keeping the components it was constructed from. -/
structure Timedelta where
  days : Nat
  hours : Nat
  minutes : Nat
  seconds : Nat
deriving DecidableEq

def Timedelta.toInt (t : Timedelta) : Int :=
  ((t.days * 86400 + t.hours * 3600 + t.minutes * 60 + t.seconds : Nat) : Int) * usPerSec

/-- Model of `parse_time` (lines 203–216): `re.match` of
`((?P<days>\d+?)d)?((?P<hours>\d+?)hr)?((?P<minutes>\d+?)m)?((?P<seconds>\d+?)s)?`
against a prefix of the input; every group is optional so the match never
fails, and absent groups contribute zero to the resulting timedelta. -/
def parse_time (s : List Char) : Timedelta :=
  let r1 := matchGroup ['d'] s
  let r2 := matchGroup ['h', 'r'] r1.2
  let r3 := matchGroup ['m'] r2.2
  let r4 := matchGroup ['s'] r3.2
  ⟨(r1.1).getD 0, (r2.1).getD 0, (r3.1).getD 0, (r4.1).getD 0⟩

/-- Rendering of one optional group of the duration pattern: absent groups
contribute nothing, a present group is its digits followed by the literal
suffix. -/
def groupStr (g : Option (List Char)) (suffix : List Char) : List Char :=
  match g with
  | none => []
  | some ds => ds ++ suffix

/-- A string matching the pattern `(<N>d)?(<N>hr)?(<N>m)?(<N>s)?`, assembled
from the four optional digit groups. -/
def durationStr (d h m s : Option (List Char)) : List Char :=
  groupStr d ['d'] ++ (groupStr h ['h', 'r'] ++ (groupStr m ['m'] ++ groupStr s ['s']))

/-- Well-formedness of one optional group: when present, a non-empty string
of decimal digits. -/
def DigitGroup (g : Option (List Char)) : Prop :=
  ∀ ds, g = some ds → ds ≠ [] ∧ ∀ x ∈ ds, x.isDigit

/-! ### Basic lemmas about the loop body -/

theorem packetBody_d (average : Bool) (delta : Int) (outcome : PacketOutcome)
    (st : LoopState) : (packetBody average delta outcome st).d = st.d + delta := by
  cases outcome with
  | err => rfl
  | ok rows =>
      cases average with
      | false => rfl
      | true =>
          simp only [packetBody]
          cases export_average rows (fmtSec (st.d + delta - halfTd delta)) (st.file.getD []) <;> rfl

theorem packetBody_err (average : Bool) (delta : Int) (st : LoopState) :
    packetBody average delta .err st = ⟨st.d + delta, st.file⟩ := rfl

theorem packetBody_ok_nil (average : Bool) (delta : Int) (st : LoopState) :
    packetBody average delta (.ok []) st = ⟨st.d + delta, some (st.file.getD [])⟩ := by
  cases average with
  | false => simp [packetBody, exportRs]
  | true => simp [packetBody, export_average]

theorem packetBody_file_isSome (average : Bool) (delta : Int) (outcome : PacketOutcome)
    (st : LoopState) (h : st.file.isSome) : (packetBody average delta outcome st).file.isSome := by
  cases outcome with
  | err => exact h
  | ok rows =>
      cases average with
      | false => simp [packetBody]
      | true =>
          simp only [packetBody]
          cases export_average rows (fmtSec (st.d + delta - halfTd delta)) (st.file.getD []) <;>
            simp

theorem getTagLoop_done (average : Bool) (endTime delta : Int)
    (oracle : Nat → PacketOutcome) (fuel i : Nat) (st : LoopState) (h : ¬ st.d < endTime) :
    getTagLoop average endTime delta oracle fuel i st = some ([], st) := by
  cases fuel <;> simp [getTagLoop, h]

/-! ### The accumulator of `export_average` -/

theorem export_average_foldl (rs : List Row) (t0 : Option String) (a0 n0 : ℚ) :
    rs.foldl
      (fun (st : Option String × ℚ × ℚ) item =>
        (some item.tagname, st.2.1 + item.value, st.2.2 + 1)) (t0, a0, n0) =
      ((rs.map (fun r => some r.tagname)).getLastD t0,
        a0 + (rs.map Row.value).sum, n0 + rs.length) := by
  induction rs generalizing t0 a0 n0 with
  | nil => simp
  | cons x xs ih =>
      simp only [List.foldl_cons, ih, List.map_cons, List.getLastD_cons, List.sum_cons,
        List.length_cons, Prod.mk.injEq, true_and]
      push_cast
      constructor <;> ring

theorem export_average_eq (rs : List Row) (a_date : Int) (content : FileContent)
    (h : rs ≠ []) :
    export_average rs a_date content =
      .ok (content ++ [⟨(rs.getLast h).tagname, a_date,
        (rs.map Row.value).sum / rs.length⟩]) := by
  simp only [export_average, if_neg h, export_average_foldl, zero_add]
  have hlen0 : rs.length ≠ 0 := by simpa using h
  have hlen : ((rs.length : ℚ)) ≠ 0 := Nat.cast_ne_zero.mpr hlen0
  rw [if_neg hlen]
  have hlast : (rs.map (fun r => some r.tagname)).getLastD none =
      some (rs.getLast h).tagname := by
    rw [List.getLastD_eq_getLast?, List.getLast?_map,
      List.getLast?_eq_getLast rs h]
    rfl
  rw [hlast]
  rfl

theorem export_average_never_errors (rs : List Row) (a_date : Int)
    (content : FileContent) : ∃ c, export_average rs a_date content = Except.ok c := by
  by_cases h : rs = []
  · exact ⟨content, by simp [export_average, h]⟩
  · exact ⟨_, export_average_eq rs a_date content h⟩

/-! ### Unfolding equations and structural lemmas for the packet loop -/

theorem getTagLoop_zero (average : Bool) (endTime delta : Int)
    (oracle : Nat → PacketOutcome) (i : Nat) (st : LoopState) :
    getTagLoop average endTime delta oracle 0 i st =
      if st.d < endTime then none else some ([], st) := rfl

theorem getTagLoop_succ (average : Bool) (endTime delta : Int)
    (oracle : Nat → PacketOutcome) (fuel i : Nat) (st : LoopState) :
    getTagLoop average endTime delta oracle (fuel + 1) i st =
      if st.d < endTime then
        match getTagLoop average endTime delta oracle fuel (i + 1)
            (packetBody average delta (oracle i) st) with
        | none => none
        | some (bs, fin) => some ((fmtSec st.d, fmtSec (st.d + delta)) :: bs, fin)
      else some ([], st) := rfl

/-- With a non-positive packet size the cursor never advances past `endTime`,
so any finite fuel is exhausted: the while-loop does not terminate. -/
theorem getTagLoop_diverge (average : Bool) (endTime delta : Int)
    (oracle : Nat → PacketOutcome) (hdelta : delta ≤ 0) :
    ∀ (fuel i : Nat) (st : LoopState), st.d < endTime →
      getTagLoop average endTime delta oracle fuel i st = none := by
  intro fuel
  induction fuel with
  | zero => intro i st h; simp [getTagLoop_zero, h]
  | succ fuel ih =>
      intro i st h
      have h' : (packetBody average delta (oracle i) st).d < endTime := by
        rw [packetBody_d]; omega
      rw [getTagLoop_succ, if_pos h, ih (i + 1) _ h']

/-- Shape of a terminated run: if `n` satisfies the exact stopping
characterization then with fuel at least `n` the loop returns exactly the
`n` query bound pairs `(d + j·δ, d + (j+1)·δ)` (formatted to whole
seconds) and a final cursor of `d + n·δ`. -/
theorem getTagLoop_shape (average : Bool) (endTime delta : Int)
    (oracle : Nat → PacketOutcome) :
    ∀ (n fuel i : Nat) (st : LoopState), n ≤ fuel →
      (∀ j : Nat, j < n → st.d + (j : Int) * delta < endTime) →
      endTime ≤ st.d + (n : Int) * delta →
      ∃ fin : LoopState,
        getTagLoop average endTime delta oracle fuel i st =
          some ((List.range n).map
            (fun (j : Nat) => (fmtSec (st.d + (j : Int) * delta),
              fmtSec (st.d + ((j : Int) + 1) * delta))), fin) ∧
        fin.d = st.d + (n : Int) * delta := by
  intro n
  induction n with
  | zero =>
      intro fuel i st _ _ hend
      have hstop : ¬ st.d < endTime := by simp only [Nat.cast_zero, zero_mul, add_zero] at hend; omega
      exact ⟨st, by simp [getTagLoop_done _ _ _ _ _ _ _ hstop], by simp⟩
  | succ n ih =>
      intro fuel i st hfuel hlt hend
      cases fuel with
      | zero => exact absurd hfuel (by omega)
      | succ fuel' =>
      have hd0 : st.d < endTime := by
        have h0 := hlt 0 (Nat.succ_pos n)
        simp only [Nat.cast_zero, zero_mul, add_zero] at h0
        exact h0
      have hd' : (packetBody average delta (oracle i) st).d = st.d + delta :=
        packetBody_d average delta (oracle i) st
      obtain ⟨fin, hrun, hfin⟩ :=
        ih fuel' (i + 1) (packetBody average delta (oracle i) st) (by omega)
          (fun j hj => by
            rw [hd']
            have hj1 := hlt (j + 1) (by omega)
            push_cast at hj1 ⊢
            linarith)
          (by
            rw [hd']
            push_cast at hend ⊢
            linarith)
      refine ⟨fin, ?_, ?_⟩
      · rw [getTagLoop_succ, if_pos hd0, hrun]
        have hlist : (fmtSec st.d, fmtSec (st.d + delta)) ::
            (List.range n).map (fun (j : Nat) =>
              (fmtSec ((packetBody average delta (oracle i) st).d + (j : Int) * delta),
               fmtSec ((packetBody average delta (oracle i) st).d + ((j : Int) + 1) * delta))) =
            (List.range (n + 1)).map (fun (j : Nat) =>
              (fmtSec (st.d + (j : Int) * delta),
               fmtSec (st.d + ((j : Int) + 1) * delta))) := by
          rw [List.range_succ_eq_map, List.map_cons, List.map_map]
          refine congrArg₂ _ (by norm_num) ?_
          refine List.map_congr_left (fun j _ => ?_)
          simp only [Function.comp_apply, hd', Nat.succ_eq_add_one]
          push_cast
          refine congrArg₂ _ (congrArg _ (by ring)) (congrArg _ (by ring))
        rw [← hlist]
      · rw [hfin, hd']
        push_cast
        ring

/-- Once the output file exists it keeps existing through the rest of the
loop. -/
theorem getTagLoop_file_isSome (average : Bool) (endTime delta : Int)
    (oracle : Nat → PacketOutcome) :
    ∀ (fuel i : Nat) (st : LoopState) (bs : List (Int × Int)) (fin : LoopState),
      getTagLoop average endTime delta oracle fuel i st = some (bs, fin) →
      st.file.isSome → fin.file.isSome := by
  intro fuel
  induction fuel with
  | zero =>
      intro i st bs fin hrun h
      rw [getTagLoop_zero] at hrun
      split at hrun
      · cases hrun
      · cases hrun; exact h
  | succ fuel ih =>
      intro i st bs fin hrun h
      rw [getTagLoop_succ] at hrun
      split at hrun
      · cases hrec : getTagLoop average endTime delta oracle fuel (i + 1)
            (packetBody average delta (oracle i) st) with
        | none => rw [hrec] at hrun; cases hrun
        | some r =>
            obtain ⟨bs', fin'⟩ := r
            rw [hrec] at hrun
            cases hrun
            exact ih (i + 1) _ bs' fin hrec
              (packetBody_file_isSome average delta (oracle i) st h)
      · cases hrun; exact h

/-- If every query of the run raised, the output file is exactly what it was
before the run (in particular: still absent when it was absent). -/
theorem getTagLoop_file_err (average : Bool) (endTime delta : Int)
    (oracle : Nat → PacketOutcome) :
    ∀ (fuel i : Nat) (st : LoopState) (bs : List (Int × Int)) (fin : LoopState),
      getTagLoop average endTime delta oracle fuel i st = some (bs, fin) →
      (∀ j, i ≤ j → j < i + bs.length → oracle j = .err) →
      fin.file = st.file := by
  intro fuel
  induction fuel with
  | zero =>
      intro i st bs fin hrun _
      rw [getTagLoop_zero] at hrun
      split at hrun
      · cases hrun
      · cases hrun; rfl
  | succ fuel ih =>
      intro i st bs fin hrun herr
      rw [getTagLoop_succ] at hrun
      split at hrun
      · cases hrec : getTagLoop average endTime delta oracle fuel (i + 1)
            (packetBody average delta (oracle i) st) with
        | none => rw [hrec] at hrun; cases hrun
        | some r =>
            obtain ⟨bs', fin'⟩ := r
            rw [hrec] at hrun
            cases hrun
            have hi : oracle i = .err :=
              herr i (Nat.le_refl i) (by simp)
            have := ih (i + 1) _ bs' fin hrec
              (fun j h1 h2 => herr j (by omega) (by simp; omega))
            rw [this, hi, packetBody_err]
      · cases hrun; rfl

/-- If some query of the run did not raise, an output file exists when the
loop finishes. -/
theorem getTagLoop_file_some (average : Bool) (endTime delta : Int)
    (oracle : Nat → PacketOutcome) :
    ∀ (fuel i : Nat) (st : LoopState) (bs : List (Int × Int)) (fin : LoopState),
      getTagLoop average endTime delta oracle fuel i st = some (bs, fin) →
      (∃ j, i ≤ j ∧ j < i + bs.length ∧ oracle j ≠ .err) →
      fin.file.isSome := by
  intro fuel
  induction fuel with
  | zero =>
      intro i st bs fin hrun hex
      rw [getTagLoop_zero] at hrun
      split at hrun
      · cases hrun
      · cases hrun
        obtain ⟨j, h1, h2, _⟩ := hex
        simp at h2
        omega
  | succ fuel ih =>
      intro i st bs fin hrun hex
      rw [getTagLoop_succ] at hrun
      split at hrun
      · cases hrec : getTagLoop average endTime delta oracle fuel (i + 1)
            (packetBody average delta (oracle i) st) with
        | none => rw [hrec] at hrun; cases hrun
        | some r =>
            obtain ⟨bs', fin'⟩ := r
            rw [hrec] at hrun
            cases hrun
            by_cases hi : oracle i = .err
            · obtain ⟨j, h1, h2, h3⟩ := hex
              have hj : i + 1 ≤ j := by
                rcases Nat.lt_or_ge i j with h | h
                · omega
                · exact absurd (le_antisymm h h1 ▸ hi) h3
              exact ih (i + 1) _ bs' fin hrec ⟨j, hj, by simp at h2; omega, h3⟩
            · cases ho : oracle i with
              | err => exact absurd ho hi
              | ok rows =>
                  refine getTagLoop_file_isSome average endTime delta oracle fuel
                    (i + 1) _ bs' fin hrec ?_
                  rw [ho]
                  cases average with
                  | false => simp [packetBody]
                  | true =>
                      simp only [packetBody]
                      cases export_average rows
                        (fmtSec (st.d + delta - halfTd delta)) (st.file.getD []) <;> simp
      · cases hrun
        obtain ⟨j, h1, h2, _⟩ := hex
        simp at h2
        omega

/-- If no successful query of the run returned any sample, the loop cannot
add lines: the final file is the initial one, or (when some packet opened
it) exactly the initial content materialized as a file. -/
theorem getTagLoop_file_empty (average : Bool) (endTime delta : Int)
    (oracle : Nat → PacketOutcome) :
    ∀ (fuel i : Nat) (st : LoopState) (bs : List (Int × Int)) (fin : LoopState),
      getTagLoop average endTime delta oracle fuel i st = some (bs, fin) →
      (∀ j rows, i ≤ j → j < i + bs.length → oracle j = .ok rows → rows = []) →
      fin.file = st.file ∨ fin.file = some (st.file.getD []) := by
  intro fuel
  induction fuel with
  | zero =>
      intro i st bs fin hrun _
      rw [getTagLoop_zero] at hrun
      split at hrun
      · cases hrun
      · cases hrun; exact Or.inl rfl
  | succ fuel ih =>
      intro i st bs fin hrun hempty
      rw [getTagLoop_succ] at hrun
      split at hrun
      · cases hrec : getTagLoop average endTime delta oracle fuel (i + 1)
            (packetBody average delta (oracle i) st) with
        | none => rw [hrec] at hrun; cases hrun
        | some r =>
            obtain ⟨bs', fin'⟩ := r
            rw [hrec] at hrun
            cases hrun
            have hrest := ih (i + 1) _ bs' fin hrec
              (fun j rows h1 h2 hj => hempty j rows (by omega) (by simp; omega) hj)
            cases ho : oracle i with
            | err =>
                rw [ho, packetBody_err] at hrest
                exact hrest
            | ok rows =>
                have hnil : rows = [] :=
                  hempty i rows (Nat.le_refl i) (by simp) ho
                subst hnil
                rw [ho, packetBody_ok_nil] at hrest
                rcases hrest with h | h
                · exact Or.inr h
                · simpa using Or.inr h
      · cases hrun; exact Or.inl rfl

/-! ### Lemmas about the duration regex -/

theorem run_split (ds : List Char) (c : Char) (t : List Char)
    (hd : ∀ x ∈ ds, x.isDigit) (hc : c.isDigit = false) :
    ((ds ++ c :: t).takeWhile Char.isDigit = ds) ∧
    ((ds ++ c :: t).dropWhile Char.isDigit = c :: t) := by
  induction ds with
  | nil => simp [List.takeWhile_cons, List.dropWhile_cons, hc]
  | cons x xs ih =>
      have hx : x.isDigit := hd x (by simp)
      have ih' := ih (fun y hy => hd y (by simp [hy]))
      simp [List.takeWhile_cons, List.dropWhile_cons, hx, ih'.1, ih'.2]

theorem run_all (ds : List Char) (hd : ∀ x ∈ ds, x.isDigit) :
    (ds.takeWhile Char.isDigit = ds) ∧ (ds.dropWhile Char.isDigit = []) := by
  induction ds with
  | nil => simp
  | cons x xs ih =>
      have hx : x.isDigit := hd x (by simp)
      have ih' := ih (fun y hy => hd y (by simp [hy]))
      simp [List.takeWhile_cons, List.dropWhile_cons, hx, ih'.1, ih'.2]

theorem matchGroup_hit (ds t0 rest : List Char) (c0 : Char)
    (hd : ∀ x ∈ ds, x.isDigit) (hne : ds ≠ []) (hc0 : c0.isDigit = false) :
    matchGroup (c0 :: t0) (ds ++ (c0 :: t0) ++ rest) = (some (digitsVal ds), rest) := by
  have hform : ds ++ (c0 :: t0) ++ rest = ds ++ c0 :: (t0 ++ rest) := by
    simp [List.append_assoc]
  have hsplit := run_split ds c0 (t0 ++ rest) hd hc0
  rw [hform]
  simp only [matchGroup, hsplit.1, hsplit.2]
  rw [if_pos]
  · simp [List.take_left, List.drop_left]
  · refine ⟨hne, ?_⟩
    simp [List.take_left]

theorem matchGroup_miss_digits (suffix ds : List Char) (c : Char) (t : List Char)
    (hd : ∀ x ∈ ds, x.isDigit) (hc : c.isDigit = false)
    (hcs : ∀ t0, suffix ≠ c :: t0) (hne : suffix ≠ []) :
    matchGroup suffix (ds ++ c :: t) = (none, ds ++ c :: t) := by
  have hsplit := run_split ds c t hd hc
  simp only [matchGroup, hsplit.1, hsplit.2]
  rw [if_neg]
  rintro ⟨-, h2⟩
  obtain ⟨s0, t0, rfl⟩ := List.exists_cons_of_ne_nil hne
  rw [List.length_cons, List.take_succ_cons] at h2
  injection h2 with h2a h2b
  exact hcs t0 (by rw [h2a])

theorem matchGroup_miss_all (suffix ds : List Char) (hd : ∀ x ∈ ds, x.isDigit)
    (hne : suffix ≠ []) :
    matchGroup suffix ds = (none, ds) := by
  have h := run_all ds hd
  simp only [matchGroup, h.1, h.2]
  rw [if_neg]
  rintro ⟨-, h2⟩
  rw [List.take_nil] at h2
  exact hne h2.symm

theorem miss_tail_s (suffix : List Char) (s : Option (List Char))
    (hs : DigitGroup s) (hne : suffix ≠ []) (hcs : ∀ t0, suffix ≠ 's' :: t0) :
    matchGroup suffix (groupStr s ['s']) = (none, groupStr s ['s']) := by
  cases s with
  | none => exact matchGroup_miss_all suffix [] (by simp) hne
  | some ds =>
      obtain ⟨-, hdig⟩ := hs ds rfl
      simpa [groupStr] using matchGroup_miss_digits suffix ds 's' [] hdig (by decide) hcs hne

theorem miss_tail_ms (suffix : List Char) (m s : Option (List Char))
    (hm : DigitGroup m) (hs : DigitGroup s) (hne : suffix ≠ [])
    (hcm : ∀ t0, suffix ≠ 'm' :: t0) (hcs : ∀ t0, suffix ≠ 's' :: t0) :
    matchGroup suffix (groupStr m ['m'] ++ groupStr s ['s']) =
      (none, groupStr m ['m'] ++ groupStr s ['s']) := by
  cases m with
  | none => simpa [groupStr] using miss_tail_s suffix s hs hne hcs
  | some ds =>
      obtain ⟨-, hdig⟩ := hm ds rfl
      have := matchGroup_miss_digits suffix ds 'm' (groupStr s ['s']) hdig (by decide) hcm hne
      simpa [groupStr, List.append_assoc] using this

theorem miss_tail_hms (suffix : List Char) (h m s : Option (List Char))
    (hh : DigitGroup h) (hm : DigitGroup m) (hs : DigitGroup s) (hne : suffix ≠ [])
    (hch : ∀ t0, suffix ≠ 'h' :: t0) (hcm : ∀ t0, suffix ≠ 'm' :: t0)
    (hcs : ∀ t0, suffix ≠ 's' :: t0) :
    matchGroup suffix (groupStr h ['h', 'r'] ++ (groupStr m ['m'] ++ groupStr s ['s'])) =
      (none, groupStr h ['h', 'r'] ++ (groupStr m ['m'] ++ groupStr s ['s'])) := by
  cases h with
  | none => simpa [groupStr] using miss_tail_ms suffix m s hm hs hne hcm hcs
  | some ds =>
      obtain ⟨-, hdig⟩ := hh ds rfl
      have := matchGroup_miss_digits suffix ds 'h'
        ('r' :: (groupStr m ['m'] ++ groupStr s ['s'])) hdig (by decide) hch hne
      simpa [groupStr, List.append_assoc] using this

theorem matchGroup_groupStr (g : Option (List Char)) (c0 : Char) (t0 : List Char)
    (hg : DigitGroup g) (hc0 : c0.isDigit = false) (rest : List Char)
    (hmiss : g = none → matchGroup (c0 :: t0) rest = (none, rest)) :
    matchGroup (c0 :: t0) (groupStr g (c0 :: t0) ++ rest) = (g.map digitsVal, rest) := by
  cases g with
  | none => simpa [groupStr] using hmiss rfl
  | some ds =>
      obtain ⟨hne, hdig⟩ := hg ds rfl
      have := matchGroup_hit ds t0 rest c0 hdig hne hc0
      simpa [groupStr, List.append_assoc] using this

/-! ### Ceiling-division arithmetic for the packet count -/

theorem fmtSec_of_dvd (t : Int) (h : usPerSec ∣ t) : fmtSec t = t := by
  unfold fmtSec
  exact Int.mul_ediv_cancel' h

theorem ceil_div_spec (W delta : Int) (hW : 0 < W) (hd : 0 < delta) :
    0 < (W + delta - 1) / delta ∧
    W ≤ ((W + delta - 1) / delta) * delta ∧
    (((W + delta - 1) / delta) - 1) * delta < W := by
  have hdvd := Int.ediv_add_emod (W + delta - 1) delta
  have hr0 := Int.emod_nonneg (W + delta - 1) (ne_of_gt hd)
  have hr1 := Int.emod_lt_of_pos (W + delta - 1) hd
  set q := (W + delta - 1) / delta with hq
  set r := (W + delta - 1) % delta with hr
  have hWq : W ≤ q * delta := by nlinarith
  have hq0 : 0 < q := by
    by_contra hqn
    push_neg at hqn
    have : q * delta ≤ 0 := mul_nonpos_of_nonpos_of_nonneg hqn (le_of_lt hd)
    linarith
  refine ⟨hq0, hWq, ?_⟩
  nlinarith

/-! ### The specification claims -/

/-- Claim C8: window resolution — in `sw` mode the resolved window is
`end = start + duration` with `start` as supplied, and in `ew` mode it is
`start = end − duration` with `end` as supplied; in particular start
2019-04-07T12:00:00 with a 10-minute window gives end 2019-04-07T12:10:00,
and end 2019-04-07T12:10:00 with a 10-minute window gives start
2019-04-07T12:00:00. -/
theorem claim_C8_window_resolution :
    (∀ s w : Int, resolveWindow (.sw s w) = (s, s + w)) ∧
    (∀ e w : Int, resolveWindow (.ew e w) = (e - w, e)) ∧
    resolveWindow (.sw 1554638400000000 600000000) = (1554638400000000, 1554639000000000) ∧
    resolveWindow (.ew 1554639000000000 600000000) = (1554638400000000, 1554639000000000) :=
  ⟨fun _ _ => rfl, fun _ _ => rfl, by decide, by decide⟩

/-- Claim C6: when the requested window `end − start` is strictly smaller than the
requested packet size, the packet size is silently clamped to exactly
`end − start` (no error is modelled), and the loop then runs exactly one
packet covering the whole window: one query with bounds `(start, end)` and
final cursor `end`. -/
theorem claim_C6_psize_clamp (startTime endTime psize : Int)
    (hlt : startTime < endTime) (hsmall : endTime - startTime < psize) :
    resolvePacketSize startTime endTime psize = endTime - startTime ∧
    ∀ (average : Bool) (oracle : Nat → PacketOutcome) (file0 : Option FileContent) (fuel : Nat),
      ∃ fin : LoopState,
        getTagLoop average endTime (resolvePacketSize startTime endTime psize) oracle
            (fuel + 1) 0 ⟨startTime, file0⟩ =
          some ([(fmtSec startTime, fmtSec endTime)], fin) ∧ fin.d = endTime := by
  have hres : resolvePacketSize startTime endTime psize = endTime - startTime :=
    if_pos hsmall
  refine ⟨hres, ?_⟩
  intro average oracle file0 fuel
  rw [hres]
  obtain ⟨fin, hrun, hfin⟩ := getTagLoop_shape average endTime (endTime - startTime) oracle 1
    (fuel + 1) 0 ⟨startTime, file0⟩ (by omega)
    (fun j hj => by
      have hj0 : j = 0 := by omega
      subst hj0
      simpa using hlt)
    (by push_cast; omega)
  refine ⟨fin, ?_, ?_⟩
  · rw [hrun, show List.range 1 = [0] from rfl]
    simp only [List.map_cons, List.map_nil, Nat.cast_zero, zero_mul, add_zero, zero_add, one_mul]
    rw [show startTime + (endTime - startTime) = endTime by omega]
  · rw [hfin]
    push_cast
    omega

/-- Witness for C6: a 5-minute window with a requested 1-day packet size
resolves to a 5-minute packet size and a single packet. -/
theorem claim_C6_psize_clamp_witness :
    resolvePacketSize 0 300000000 86400000000 = 300000000 ∧
    ∀ (average : Bool) (oracle : Nat → PacketOutcome) (file0 : Option FileContent) (fuel : Nat),
      ∃ fin : LoopState,
        getTagLoop average 300000000 (resolvePacketSize 0 300000000 86400000000) oracle
            (fuel + 1) 0 ⟨0, file0⟩ =
          some ([(fmtSec 0, fmtSec 300000000)], fin) ∧ fin.d = 300000000 := by
  have h := claim_C6_psize_clamp 0 300000000 86400000000 (by decide) (by decide)
  simpa using h

/-- Claim C4 counterexample: for a packet whose query returned zero samples,
`export_average` does NOT fail with a division-by-zero error — the
`if not (rs.BOF or rs.EOF)` guard skips the whole averaging block (an empty
ADO recordset has `BOF = EOF = True`), leaving the opened file unchanged. -/
theorem claim_C4_counterexample :
    export_average [] 0 [] = Except.ok [] ∧
    export_average [] 0 [] ≠ Except.error PyErr.zeroDivisionError := by
  refine ⟨rfl, fun hcontra => ?_⟩
  rw [show export_average [] 0 [] = Except.ok [] from rfl] at hcontra
  exact Except.noConfusion hcontra

/-- Claim C4 amended: on a zero-sample packet the averaging code is skipped by the
recordset guard and writes nothing; the division `ave/num` is reached only
with at least one sample, so `export_average` never raises
`ZeroDivisionError` on any input. -/
theorem claim_C4_amended (rs : List Row) (a_date : Int) (content : FileContent) :
    (rs = [] → export_average rs a_date content = Except.ok content) ∧
    ∃ c, export_average rs a_date content = Except.ok c := by
  constructor
  · intro h
    subst h
    simp [export_average]
  · exact export_average_never_errors rs a_date content

/-- Witness for C4 amended, at a zero-sample packet. -/
theorem claim_C4_amended_witness :
    (([] : List Row) = [] → export_average [] 0 [] = Except.ok []) ∧
    ∃ c, export_average ([] : List Row) 0 [] = Except.ok c :=
  claim_C4_amended [] 0 []

/-- Claim C3: in averaging mode, a packet whose query returns a non-empty sample
set appends exactly one output record, carrying the last sample's tag name,
the (whole-second formatted) timestamp at the packet midpoint — the advanced
cursor minus `packetSize/2` — and the unweighted arithmetic mean of the
sample values. -/
theorem claim_C3_average_packet (delta : Int) (rows : List Row) (st : LoopState)
    (h : rows ≠ []) :
    packetBody true delta (.ok rows) st =
      ⟨st.d + delta,
        some (st.file.getD [] ++
          [⟨(rows.getLast h).tagname, fmtSec (st.d + delta - halfTd delta),
            (rows.map Row.value).sum / rows.length⟩])⟩ := by
  simp only [packetBody, export_average_eq rows _ _ h]
  simp

/-- Witness for C3: a packet with samples of values 1, 2, 3 yields the single
averaged value 2 at the packet midpoint. -/
theorem claim_C3_average_packet_witness :
    packetBody true 2000000 (.ok [⟨"t", 10, 1⟩, ⟨"t", 20, 2⟩, ⟨"t", 30, 3⟩]) ⟨0, none⟩ =
      ⟨2000000, some [⟨"t", 1000000, 2⟩]⟩ := by
  rw [claim_C3_average_packet 2000000 _ _ (by decide)]
  have hval : ((([⟨"t", 10, 1⟩, ⟨"t", 20, 2⟩, ⟨"t", 30, 3⟩] : List Row).map Row.value).sum /
      ((([⟨"t", 10, 1⟩, ⟨"t", 20, 2⟩, ⟨"t", 30, 3⟩] : List Row).length : ℕ) : ℚ)) = 2 := by
    norm_num
  rw [hval]
  decide

theorem head_ne_cons {a b : Char} (t : List Char) (hab : a ≠ b) :
    ∀ t0 : List Char, a :: t ≠ b :: t0 := by
  intro t0 hq
  injection hq with h1 _
  exact hab h1

/-- Claim C7: the duration parser maps any string of the form
`(<N>d)?(<N>hr)?(<N>m)?(<N>s)?` to the timedelta whose present components
are the groups' numeric values and whose absent components are zero; an
empty or non-matching string yields the zero duration rather than a parse
failure. -/
theorem claim_C7_parse_time (d h m s : Option (List Char))
    (hd : DigitGroup d) (hh : DigitGroup h) (hm : DigitGroup m) (hs : DigitGroup s) :
    parse_time (durationStr d h m s) =
      ⟨((d.map digitsVal).getD 0), ((h.map digitsVal).getD 0),
        ((m.map digitsVal).getD 0), ((s.map digitsVal).getD 0)⟩ ∧
    parse_time [] = ⟨0, 0, 0, 0⟩ ∧
    parse_time ('x' :: 'y' :: 'z' :: []) = ⟨0, 0, 0, 0⟩ := by
  refine ⟨?_, by decide, by decide⟩
  have e4 : matchGroup ['s'] (groupStr s ['s']) = (s.map digitsVal, []) := by
    have := matchGroup_groupStr s 's' [] hs (by decide) []
      (fun _ => matchGroup_miss_all ['s'] [] (by simp) (by decide))
    simpa using this
  have e3 : matchGroup ['m'] (groupStr m ['m'] ++ groupStr s ['s']) =
      (m.map digitsVal, groupStr s ['s']) :=
    matchGroup_groupStr m 'm' [] hm (by decide) (groupStr s ['s'])
      (fun _ => miss_tail_s ['m'] s hs (by decide) (head_ne_cons [] (by decide)))
  have e2 : matchGroup ['h', 'r'] (groupStr h ['h', 'r'] ++ (groupStr m ['m'] ++ groupStr s ['s'])) =
      (h.map digitsVal, groupStr m ['m'] ++ groupStr s ['s']) :=
    matchGroup_groupStr h 'h' ['r'] hh (by decide) (groupStr m ['m'] ++ groupStr s ['s'])
      (fun _ => miss_tail_ms ['h', 'r'] m s hm hs (by decide)
        (head_ne_cons ['r'] (by decide)) (head_ne_cons ['r'] (by decide)))
  have e1 : matchGroup ['d'] (durationStr d h m s) =
      (d.map digitsVal, groupStr h ['h', 'r'] ++ (groupStr m ['m'] ++ groupStr s ['s'])) :=
    matchGroup_groupStr d 'd' [] hd (by decide)
      (groupStr h ['h', 'r'] ++ (groupStr m ['m'] ++ groupStr s ['s']))
      (fun _ => miss_tail_hms ['d'] h m s hh hm hs (by decide)
        (head_ne_cons [] (by decide)) (head_ne_cons [] (by decide))
        (head_ne_cons [] (by decide)))
  simp only [parse_time, e1, e2, e3, e4]

/-- Witness for C7: `parse_time "2d3hr5m10s"` gives 2 days, 3 hours,
5 minutes, 10 seconds, and `parse_time "10m"` gives 10 minutes. -/
theorem claim_C7_parse_time_witness :
    parse_time ('2' :: 'd' :: '3' :: 'h' :: 'r' :: '5' :: 'm' :: '1' :: '0' :: 's' :: []) =
      ⟨2, 3, 5, 10⟩ ∧
    parse_time ('1' :: '0' :: 'm' :: []) = ⟨0, 0, 10, 0⟩ := by
  constructor
  · have h := claim_C7_parse_time (some ['2']) (some ['3']) (some ['5']) (some ['1', '0'])
      (fun ds hds => by cases hds; exact ⟨by decide, by decide⟩)
      (fun ds hds => by cases hds; exact ⟨by decide, by decide⟩)
      (fun ds hds => by cases hds; exact ⟨by decide, by decide⟩)
      (fun ds hds => by cases hds; exact ⟨by decide, by decide⟩)
    exact h.1
  · have h := claim_C7_parse_time none none (some ['1', '0']) none
      (fun ds hds => by cases hds) (fun ds hds => by cases hds)
      (fun ds hds => by cases hds; exact ⟨by decide, by decide⟩)
      (fun ds hds => by cases hds)
    exact h.1

/-- Claim C5: per-packet error handling — the cursor is advanced by `packetSize`
before the query can fail, a raised query/export error leaves this
iteration's state otherwise untouched, and the sequence of issued query
bounds, the termination behavior, and the final cursor are identical for
any two outcome sequences: a failing packet never changes the bounds of,
or prevents, any later packet. -/
theorem claim_C5_error_policy :
    (∀ (average : Bool) (delta : Int) (outcome : PacketOutcome) (st : LoopState),
      (packetBody average delta outcome st).d = st.d + delta) ∧
    (∀ (average : Bool) (delta : Int) (st : LoopState),
      packetBody average delta .err st = ⟨st.d + delta, st.file⟩) ∧
    (∀ (average : Bool) (endTime delta : Int) (o1 o2 : Nat → PacketOutcome)
      (fuel i : Nat) (d : Int) (f1 f2 : Option FileContent),
      ((getTagLoop average endTime delta o1 fuel i ⟨d, f1⟩).map (fun r => (r.1, r.2.d))) =
        ((getTagLoop average endTime delta o2 fuel i ⟨d, f2⟩).map (fun r => (r.1, r.2.d)))) := by
  refine ⟨packetBody_d, packetBody_err, ?_⟩
  intro average endTime delta o1 o2 fuel
  induction fuel with
  | zero =>
      intro i d f1 f2
      by_cases hlt : d < endTime <;>
        simp [getTagLoop_zero, hlt]
  | succ fuel ih =>
      intro i d f1 f2
      by_cases hlt : d < endTime
      · rcases hp1 : packetBody average delta (o1 i) ⟨d, f1⟩ with ⟨d1, g1⟩
        rcases hp2 : packetBody average delta (o2 i) ⟨d, f2⟩ with ⟨d2, g2⟩
        have hd1 : d1 = d + delta := by
          have := packetBody_d average delta (o1 i) ⟨d, f1⟩
          rw [hp1] at this
          exact this
        have hd2 : d2 = d + delta := by
          have := packetBody_d average delta (o2 i) ⟨d, f2⟩
          rw [hp2] at this
          exact this
        subst hd1
        subst hd2
        have hrec := ih (i + 1) (d + delta) g1 g2
        rw [getTagLoop_succ, getTagLoop_succ, if_pos hlt, if_pos hlt, hp1, hp2]
        cases hA : getTagLoop average endTime delta o1 fuel (i + 1) ⟨d + delta, g1⟩ with
        | none =>
            cases hB : getTagLoop average endTime delta o2 fuel (i + 1) ⟨d + delta, g2⟩ with
            | none => rfl
            | some rB => rw [hA, hB] at hrec; simp at hrec
        | some rA =>
            cases hB : getTagLoop average endTime delta o2 fuel (i + 1) ⟨d + delta, g2⟩ with
            | none => rw [hA, hB] at hrec; simp at hrec
            | some rB =>
                obtain ⟨bsA, finA⟩ := rA
                obtain ⟨bsB, finB⟩ := rB
                rw [hA, hB] at hrec
                simp only [Option.map_some', Option.some.injEq, Prod.mk.injEq] at hrec
                simp [hrec.1, hrec.2]
      · simp [getTagLoop_succ, hlt]

/-- For a valid non-empty window and positive packet size, the loop
terminates within `⌈(end − start)/delta⌉` iterations and issues exactly that
many query bound pairs. -/
theorem getTagLoop_ceil (average : Bool) (startTime endTime delta : Int)
    (oracle : Nat → PacketOutcome) (file0 : Option FileContent)
    (h : startTime < endTime) (hd : 0 < delta) (fuel : Nat)
    (hfuel : ((endTime - startTime + delta - 1) / delta).toNat ≤ fuel) :
    ∃ fin : LoopState,
      getTagLoop average endTime delta oracle fuel 0 ⟨startTime, file0⟩ =
        some (((List.range ((endTime - startTime + delta - 1) / delta).toNat).map
          (fun (j : Nat) => (fmtSec (startTime + (j : Int) * delta),
            fmtSec (startTime + ((j : Int) + 1) * delta)))), fin) ∧
      fin.d = startTime + ((((endTime - startTime + delta - 1) / delta).toNat : Int)) * delta := by
  obtain ⟨h1, h2, h3⟩ := ceil_div_spec (endTime - startTime) delta (by omega) hd
  set q := (endTime - startTime + delta - 1) / delta with hqdef
  have hqn : ((q.toNat : Int)) = q := Int.toNat_of_nonneg (le_of_lt h1)
  have hcond1 : ∀ j : Nat, j < q.toNat → startTime + (j : Int) * delta < endTime := by
    intro j hj
    have hjq : (j : Int) ≤ q - 1 := by
      have hjq' : (j : Int) < q := by
        calc (j : Int) < (q.toNat : Int) := by exact_mod_cast hj
        _ = q := hqn
      omega
    have hmul : (j : Int) * delta ≤ (q - 1) * delta :=
      mul_le_mul_of_nonneg_right hjq (le_of_lt hd)
    linarith
  have hcond2 : endTime ≤ startTime + ((q.toNat : Nat) : Int) * delta := by
    rw [hqn]
    linarith
  obtain ⟨fin, hrun, hfin⟩ := getTagLoop_shape average endTime delta oracle q.toNat fuel 0
    ⟨startTime, file0⟩ hfuel hcond1 hcond2
  exact ⟨fin, hrun, hfin⟩

/-- Claim C9: for a window with `start < end`, the packet loop terminates iff the
packet size is strictly positive, in which case it issues exactly
`⌈(end − start)/packetSize⌉` packet queries; a non-positive packet size
(zero arises from `parse_time` on a non-matching `--psize` string, and the
window clamp never raises a packet size) makes the loop run forever. -/
theorem claim_C9_termination (startTime endTime delta : Int) (average : Bool)
    (oracle : Nat → PacketOutcome) (file0 : Option FileContent)
    (h : startTime < endTime) :
    ((∃ fuel r, getTagLoop average endTime delta oracle fuel 0 ⟨startTime, file0⟩ = some r) ↔
      0 < delta) ∧
    (0 < delta →
      ∀ fuel, ((endTime - startTime + delta - 1) / delta).toNat ≤ fuel →
      ∃ fin : LoopState,
        getTagLoop average endTime delta oracle fuel 0 ⟨startTime, file0⟩ =
          some (((List.range ((endTime - startTime + delta - 1) / delta).toNat).map
            (fun (j : Nat) => (fmtSec (startTime + (j : Int) * delta),
              fmtSec (startTime + ((j : Int) + 1) * delta)))), fin)) ∧
    (delta ≤ 0 → ∀ fuel,
      getTagLoop average endTime delta oracle fuel 0 ⟨startTime, file0⟩ = none) ∧
    parse_time ('x' :: 'y' :: 'z' :: []) = ⟨0, 0, 0, 0⟩ ∧
    (∀ s e : Int, windowInvalid s e = false → resolvePacketSize s e 0 = 0) := by
  have hdiverge : delta ≤ 0 → ∀ fuel,
      getTagLoop average endTime delta oracle fuel 0 ⟨startTime, file0⟩ = none :=
    fun hd0 fuel => getTagLoop_diverge average endTime delta oracle hd0 fuel 0 _ h
  refine ⟨?_, ?_, hdiverge, by decide, ?_⟩
  · constructor
    · rintro ⟨fuel, r, hr⟩
      by_contra hnd
      push_neg at hnd
      rw [hdiverge hnd fuel] at hr
      cases hr
    · intro hd
      obtain ⟨fin, hrun, -⟩ := getTagLoop_ceil average startTime endTime delta oracle file0
        h hd _ (le_refl _)
      exact ⟨_, _, hrun⟩
  · intro hd fuel hfuel
    obtain ⟨fin, hrun, -⟩ := getTagLoop_ceil average startTime endTime delta oracle file0
      h hd fuel hfuel
    exact ⟨fin, hrun⟩
  · intro s e hv
    have hse : ¬ e < s := by simpa [windowInvalid] using hv
    simp only [resolvePacketSize]
    rw [if_neg (by omega)]

/-- Witness for C9: window `[0, 5)` seconds with a 2-second packet size
terminates within `⌈5/2⌉ = 3` iterations. -/
theorem claim_C9_termination_witness :
    ∃ r, getTagLoop false 5000000 2000000 (fun _ => PacketOutcome.err) 3 0 ⟨0, none⟩ =
      some r := by
  have hpart := (claim_C9_termination 0 5000000 2000000 false (fun _ => PacketOutcome.err) none
    (by decide)).2.1 (by decide) 3 (by decide)
  obtain ⟨fin, hrun⟩ := hpart
  exact ⟨_, hrun⟩

/-- Claim C1 counterexample: with window `[0 s, 5 s)` and packet size 2 s (the
clamp does not apply), the loop issues three query ranges and the last one,
`(4 s, 6 s)`, extends beyond the window end 5 s; also the instant 2 s is the
inclusive upper bound of the first query range and the inclusive lower bound
of the second, so it is covered by two packets' query ranges. The packet
bounds therefore do not partition `[start, end)` as claimed. -/
theorem claim_C1_counterexample :
    (getTagLoop false 5000000 2000000 (fun _ => PacketOutcome.err) 3 0 ⟨0, none⟩).map Prod.fst =
      some [(0, 2000000), (2000000, 4000000), (4000000, 6000000)] ∧
    ¬ ((6000000 : Int) ≤ 5000000) :=
  ⟨by decide, by decide⟩

/-- Claim C1 amended: for every valid non-empty window and positive packet size
(whole seconds, with a whole-second start, so that the second-resolution
timestamp formatting is exact), the loop issues `⌈(end − start)/p⌉` query
ranges; the `j`-th is `[start + j·p, start + (j+1)·p]` — consecutive,
gapless, each exactly `p` long, the last never truncated — so they jointly
cover `[start, end)`, the final upper bound reaches or overshoots `end` by
less than `p`, and consecutive ranges share their boundary instant (the
historian query is inclusive at both ends). -/
theorem claim_C1_amended (startTime endTime delta : Int) (average : Bool)
    (oracle : Nat → PacketOutcome) (file0 : Option FileContent)
    (h : startTime < endTime) (hd : 0 < delta)
    (hsec1 : usPerSec ∣ startTime) (hsec2 : usPerSec ∣ delta)
    (fuel : Nat) (hfuel : ((endTime - startTime + delta - 1) / delta).toNat ≤ fuel) :
    ∃ fin : LoopState,
      getTagLoop average endTime delta oracle fuel 0 ⟨startTime, file0⟩ =
        some (((List.range ((endTime - startTime + delta - 1) / delta).toNat).map
          (fun (j : Nat) => (startTime + (j : Int) * delta,
            startTime + ((j : Int) + 1) * delta))), fin) ∧
      endTime ≤ startTime + ((((endTime - startTime + delta - 1) / delta).toNat : Int)) * delta ∧
      startTime + ((((endTime - startTime + delta - 1) / delta).toNat : Int)) * delta <
        endTime + delta := by
  obtain ⟨fin, hrun, hfin⟩ := getTagLoop_ceil average startTime endTime delta oracle file0
    h hd fuel hfuel
  obtain ⟨h1, h2, h3⟩ := ceil_div_spec (endTime - startTime) delta (by omega) hd
  set q := (endTime - startTime + delta - 1) / delta with hqdef
  have hqn : ((q.toNat : Int)) = q := Int.toNat_of_nonneg (le_of_lt h1)
  refine ⟨fin, ?_, ?_, ?_⟩
  · rw [hrun]
    have hmap : (List.range q.toNat).map
        (fun (j : Nat) => (fmtSec (startTime + (j : Int) * delta),
          fmtSec (startTime + ((j : Int) + 1) * delta))) =
        (List.range q.toNat).map
        (fun (j : Nat) => (startTime + (j : Int) * delta,
          startTime + ((j : Int) + 1) * delta)) := by
      refine List.map_congr_left (fun j _ => ?_)
      have d1 : usPerSec ∣ startTime + (j : Int) * delta :=
        hsec1.add (hsec2.mul_left _)
      have d2 : usPerSec ∣ startTime + ((j : Int) + 1) * delta :=
        hsec1.add (hsec2.mul_left _)
      rw [fmtSec_of_dvd _ d1, fmtSec_of_dvd _ d2]
    rw [hmap]
  · rw [hqn]
    linarith
  · rw [hqn]
    nlinarith

/-- Witness for C1 amended, on the window `[0 s, 5 s)` with 2-second
packets. -/
theorem claim_C1_amended_witness :
    ∃ fin : LoopState,
      getTagLoop false 5000000 2000000 (fun _ => PacketOutcome.err) 3 0 ⟨0, none⟩ =
        some (((List.range (((5000000 : Int) - 0 + 2000000 - 1) / 2000000).toNat).map
          (fun (j : Nat) => ((0 : Int) + (j : Int) * 2000000,
            (0 : Int) + ((j : Int) + 1) * 2000000))), fin) ∧
      (5000000 : Int) ≤ 0 + ((((5000000 : Int) - 0 + 2000000 - 1) / 2000000).toNat : Int) * 2000000 ∧
      (0 : Int) + ((((5000000 : Int) - 0 + 2000000 - 1) / 2000000).toNat : Int) * 2000000 <
        5000000 + 2000000 :=
  claim_C1_amended 0 5000000 2000000 false (fun _ => PacketOutcome.err) none
    (by decide) (by decide) ⟨0, by decide⟩ ⟨2, by decide⟩ 3 (by decide)

/-- Claim C2 counterexample: when a previous run left a non-empty output file for
the tag (output files are appended to across runs), a run in which every
packet yields zero samples leaves that file in place and reports the tag as
having data ("Signal"), not "Empty" — so it is not true of every run that a
tag yielding zero samples across all packets ends with no output file and an
"Empty" report. -/
theorem claim_C2_counterexample :
    getTagRun false 0 1000000 1000000 (fun _ => PacketOutcome.ok []) (some [⟨"t", 0, 1⟩]) 1 =
      some ([(0, 1000000)], Except.ok (false, some [⟨"t", 0, 1⟩])) := by decide

/-- Claim C2 amended: after the loop, when the output file exists `getTag` checks
whether it has zero bytes, deletes it and reports "empty" if so, and reports
"has data" otherwise; consequently, in a run that starts with no pre-existing
output file, in which at least one packet's query succeeds and every
successful query returns zero samples, the file is created empty, deleted
after the loop, and the tag is reported as "Empty". -/
theorem claim_C2_amended (average : Bool) (startTime endTime delta : Int)
    (oracle : Nat → PacketOutcome) (fuel : Nat) (bs : List (Int × Int)) (fin : LoopState)
    (hrun : getTagLoop average endTime delta oracle fuel 0 ⟨startTime, none⟩ = some (bs, fin))
    (hempty : ∀ j rows, j < bs.length → oracle j = .ok rows → rows = [])
    (hsucc : ∃ j, j < bs.length ∧ oracle j ≠ .err) :
    getTagPost fin.file = Except.ok (true, none) ∧
    (∀ content : FileContent,
      getTagPost (some content) =
        if content.isEmpty then Except.ok (true, none) else Except.ok (false, some content)) := by
  refine ⟨?_, fun content => rfl⟩
  have hcases := getTagLoop_file_empty average endTime delta oracle fuel 0 _ bs fin hrun
    (fun j rows h1 h2 hj => hempty j rows (by simpa using h2) hj)
  have hsome := getTagLoop_file_some average endTime delta oracle fuel 0 _ bs fin hrun
    (by
      obtain ⟨j, h1, h2⟩ := hsucc
      exact ⟨j, by omega, by simpa using h1, h2⟩)
  rcases hcases with hfe | hfe
  · rw [hfe] at hsome
    simp at hsome
  · rw [hfe]
    rfl

/-- Witness for C2 amended: one packet, successful query, zero samples,
fresh file. -/
theorem claim_C2_amended_witness :
    getTagPost (LoopState.mk 1000000 (some []) : LoopState).file = Except.ok (true, none) ∧
    (∀ content : FileContent,
      getTagPost (some content) =
        if content.isEmpty then Except.ok (true, none) else Except.ok (false, some content)) :=
  claim_C2_amended false 0 1000000 1000000 (fun _ => PacketOutcome.ok []) 1
    [(0, 1000000)] ⟨1000000, some []⟩ (by decide)
    (fun _ rows _ hq => (PacketOutcome.ok.inj hq).symm)
    ⟨0, by decide, by decide⟩

/-- Claim C10: `getTag` returns its empty/has-data flag only when some iteration
created the output file. `start == end` passes the `end < start` validation,
makes the loop run zero times, and — like a run in which every packet's
query raised before any export — leaves no file, so the unconditional
post-loop `os.stat` raises an uncaught `FileNotFoundError` instead of
returning a flag. -/
theorem claim_C10_missing_file (average : Bool) (startTime endTime delta : Int)
    (oracle : Nat → PacketOutcome) (fuel : Nat) (bs : List (Int × Int)) (fin : LoopState)
    (hrun : getTagLoop average endTime delta oracle fuel 0 ⟨startTime, none⟩ = some (bs, fin)) :
    windowInvalid startTime startTime = false ∧
    getTagLoop average startTime delta oracle fuel 0 ⟨startTime, none⟩ =
      some ([], ⟨startTime, none⟩) ∧
    (∀ file : Option FileContent,
      (getTagPost file = Except.error PyErr.fileNotFoundError ↔ file = none)) ∧
    ((∀ j, j < bs.length → oracle j = .err) →
      getTagPost fin.file = Except.error PyErr.fileNotFoundError) := by
  refine ⟨by simp [windowInvalid],
    getTagLoop_done average startTime delta oracle fuel 0 _ (lt_irrefl _), ?_, ?_⟩
  · intro file
    cases file with
    | none => simp [getTagPost]
    | some content =>
        by_cases hc : content.isEmpty <;> simp [getTagPost, hc]
  · intro herr
    have hfe := getTagLoop_file_err average endTime delta oracle fuel 0 _ bs fin hrun
      (fun j h1 h2 => herr j (by simpa using h2))
    rw [hfe]
    rfl

/-- Witness for C10: one packet whose query raises; the loop terminates but
no file was ever created and the post-loop check raises. -/
theorem claim_C10_missing_file_witness :
    windowInvalid 0 0 = false ∧
    getTagLoop false 0 1000000 (fun _ => PacketOutcome.err) 1 0 ⟨0, none⟩ =
      some ([], ⟨0, none⟩) ∧
    (∀ file : Option FileContent,
      (getTagPost file = Except.error PyErr.fileNotFoundError ↔ file = none)) ∧
    ((∀ j, j < [((0 : Int), (1000000 : Int))].length → (fun _ => PacketOutcome.err) j = .err) →
      getTagPost (LoopState.mk 1000000 none : LoopState).file =
        Except.error PyErr.fileNotFoundError) :=
  claim_C10_missing_file false 0 1000000 1000000 (fun _ => PacketOutcome.err) 1
    [(0, 1000000)] ⟨1000000, none⟩ (by decide)

end GetPiData
